import Mathlib

/-!
Verification development for the block-template assembly core
(`miner/src/block_assembler.rs`).

The Rust source is shallowly embedded: pure functions become Lean
functions, the assembler's mutable fields become an explicit state
record that every operation threads, machine integers become `Nat`
with explicit checked-arithmetic bounds, and fallible code returns
`Except`.  Hashes (`H256`) are modelled as opaque `Nat` values and
byte strings as `List Nat`.
-/

/-- Capacity is a non-negative 64-bit quantity; checked arithmetic
fails beyond this bound instead of wrapping. -/
def CAPACITY_MAX : Nat := 2 ^ 64 - 1

/-- Error kinds of the assembler.  `invalidInput`, `invalidOutput` are
`Error::InvalidInput` / `Error::InvalidOutput` from the source;
`overflow` / `underflow` are the checked-capacity failures of
`Capacity::safe_add` / `safe_sub`.  `configuration` is modelled from
the spec: the spec's error-kind list names a `Configuration` error
(the miner error enum itself is not under `src/`); it is included so
that claims about it can be stated. -/
inductive AsmError where
  | invalidInput
  | invalidOutput
  | overflow
  | underflow
  | configuration
deriving DecidableEq, Repr, Inhabited

/-- `Capacity::safe_add`: checked addition on capacities. -/
def safe_add (a b : Nat) : Except AsmError Nat :=
  if a + b ≤ CAPACITY_MAX then .ok (a + b) else .error .overflow

/-- `Capacity::safe_sub`: checked subtraction on capacities. -/
def safe_sub (a b : Nat) : Except AsmError Nat :=
  if b ≤ a then .ok (a - b) else .error .underflow

/-- `CellOutPoint`: a previous transaction output `(tx_hash, index)`. -/
structure CellOutPoint where
  tx_hash : Nat
  index : Nat
deriving DecidableEq, Repr, Inhabited

/-- `OutPoint`: points at a cell, or is a header-only dependency
(only the cell variant carries capacity). -/
structure OutPoint where
  cell : Option CellOutPoint
  block_hash : Option Nat
deriving DecidableEq, Repr, Inhabited

/-- `CellInput`: an input referencing a previous `OutPoint` together
with its argument bytes. -/
structure CellInput where
  previous_output : OutPoint
  args : List Nat
deriving DecidableEq, Repr, Inhabited

/-- Modelled from the spec: `CellInput::new_cellbase_input` lives in
`ckb_core` (not under `src/`); the spec says the cellbase input is a
synthetic input with a null out-point that encodes the new block
number. -/
def CellInput.new_cellbase_input (number : Nat) : CellInput :=
  { previous_output := { cell := none, block_hash := none }, args := [number] }

/-- `Script`: argument byte strings plus a code hash. -/
structure Script where
  args : List (List Nat)
  code_hash : Nat
deriving DecidableEq, Repr, Inhabited

/-- `CellOutput`: capacity, data payload, lock script, optional type script. -/
structure CellOutput where
  capacity : Nat
  data : List Nat
  lock : Script
  type_ : Option Script
deriving DecidableEq, Repr, Inhabited

/-- `Transaction`: ordered inputs and outputs, identified by a content
hash (the hash itself is opaque, carried as a field). -/
structure Transaction where
  hash : Nat
  inputs : List CellInput
  outputs : List CellOutput
deriving DecidableEq, Repr, Inhabited

/-- `PoolEntry`: a validated transaction with optional measured cycles
and serialized size. -/
structure PoolEntry where
  transaction : Transaction
  cycles : Option Nat
  size : Nat
deriving DecidableEq, Repr, Inhabited

/-- `Header` fields used by the assembler. -/
structure Header where
  number : Nat
  hash : Nat
  parent_hash : Nat
  timestamp : Nat
  epoch : Nat
  difficulty : Nat
  transactions_root : Nat
deriving DecidableEq, Repr, Inhabited

/-- `UncleBlock`: a header plus the uncle's proposal short-ids. -/
structure UncleBlock where
  header : Header
  proposals : List Nat
deriving DecidableEq, Repr, Inhabited

/-- `Block`: header, transactions, uncles, proposal short-ids. -/
structure Block where
  header : Header
  transactions : List Transaction
  uncles : List UncleBlock
  proposals : List Nat
deriving DecidableEq, Repr, Inhabited

/-- `EpochExt`: the active epoch's parameters.  `block_reward` is the
position-dependent reward function; in the source it returns a
`Result<Capacity>`. -/
structure EpochExt where
  number : Nat
  difficulty : Nat
  length : Nat
  block_reward : Nat → Except AsmError Nat

/-- Consensus limits consumed by the assembler. -/
structure Consensus where
  max_block_cycles : Nat
  max_block_bytes : Nat
  max_block_proposals_limit : Nat
  block_version : Nat
  max_uncles_num : Nat
  max_uncles_age : Nat

/-- The chain-state view read under the lock. -/
structure ChainState where
  tip_header : Header
  last_txs_updated_at : Nat
  current_epoch_ext : EpochExt
  get_proposals : Nat → List Nat
  get_staging_txs : Nat → Nat → List PoolEntry

/-- The shared chain handle (`Shared`): provider lookups, consensus,
and the lockable chain state. -/
structure Shared where
  consensus : Consensus
  block : Nat → Option Block
  get_transaction : Nat → Option (Transaction × Nat)
  next_epoch_ext : EpochExt → Header → Option EpochExt
  chain_state : ChainState

/-! ## FeeCalculator -/

/-- The per-build fee calculator: the ordered pool-entry slice plus
the chain-provider transaction lookup. -/
structure FeeCalculator where
  txs : List PoolEntry
  get_transaction : Nat → Option (Transaction × Nat)

/-- `FeeCalculator::new` builds the hash-to-position index over the
slice; the map insert overwrites, so for duplicate hashes the last
position wins.  Modelled as a fold over the enumerated slice. -/
def txsMapLookup (txs : List PoolEntry) (h : Nat) : Option Nat :=
  txs.enum.foldl (fun acc p => if p.2.transaction.hash = h then some p.1 else acc) none

def FeeCalculator.new (txs : List PoolEntry) (shared : Shared) : FeeCalculator :=
  { txs := txs, get_transaction := shared.get_transaction }

/-- `FeeCalculator::get_capacity`: a cell-less out-point has no
capacity; a cell whose `tx_hash` is in the slice index resolves from
that slice entry's outputs, otherwise from the chain provider. -/
def get_capacity (fc : FeeCalculator) (op : OutPoint) : Option Nat :=
  match op.cell with
  | none => none
  | some cop =>
    match txsMapLookup fc.txs cop.tx_hash with
    | some index =>
      match fc.txs.get? index with
      | some pe => (pe.transaction.outputs.get? cop.index).map (fun o => o.capacity)
      | none => none
    | none =>
      match fc.get_transaction cop.tx_hash with
      | some r => (r.1.outputs.get? cop.index).map (fun o => o.capacity)
      | none => none

/-- The input loop of `calculate_transaction_fee`: resolve each
input's capacity (failing with `InvalidInput` when unresolvable) and
accumulate with checked addition. -/
def inputFold (fc : FeeCalculator) : Nat → List CellInput → Except AsmError Nat
  | fee, [] => .ok fee
  | fee, input :: rest =>
    match get_capacity fc input.previous_output with
    | some c =>
      match safe_add fee c with
      | .ok s => inputFold fc s rest
      | .error e => .error e
    | none => .error .invalidInput

/-- The checked summation (`try_fold` with `safe_add`). -/
def sumChecked : Nat → List Nat → Except AsmError Nat
  | acc, [] => .ok acc
  | acc, c :: rest =>
    match safe_add acc c with
    | .ok s => sumChecked s rest
    | .error e => .error e

/-- `FeeCalculator::calculate_transaction_fee`. -/
def calculate_transaction_fee (fc : FeeCalculator) (tx : Transaction) : Except AsmError Nat :=
  match inputFold fc 0 tx.inputs with
  | .error e => .error e
  | .ok fee =>
    match sumChecked 0 (tx.outputs.map (fun o => o.capacity)) with
    | .error e => .error e
    | .ok spent =>
      if spent > fee then .error .invalidOutput
      else safe_sub fee spent

/-- Resolution of every input of a transaction, in order (`none` as
soon as one input has no capacity). -/
def resolveAll (fc : FeeCalculator) : List CellInput → Option (List Nat)
  | [] => some []
  | i :: rest =>
    match get_capacity fc i.previous_output with
    | some c => (resolveAll fc rest).map (fun cs => c :: cs)
    | none => none

/-! ### Fee-calculator lemmas -/

theorem sumChecked_eq (l : List Nat) : ∀ acc : Nat, acc ≤ CAPACITY_MAX →
    sumChecked acc l =
      if acc + l.sum ≤ CAPACITY_MAX then .ok (acc + l.sum) else .error .overflow := by
  induction l with
  | nil =>
    intro acc hacc
    simp [sumChecked, hacc]
  | cons c rest ih =>
    intro acc _hacc
    simp only [sumChecked, safe_add, List.sum_cons]
    by_cases h : acc + c ≤ CAPACITY_MAX
    · rw [if_pos h]
      show sumChecked (acc + c) rest = _
      rw [ih (acc + c) h]
      have : acc + (c + rest.sum) = acc + c + rest.sum := by omega
      rw [this]
    · rw [if_neg h]
      show (Except.error AsmError.overflow : Except AsmError Nat) = _
      have : ¬ acc + (c + rest.sum) ≤ CAPACITY_MAX := by omega
      rw [if_neg this]

theorem inputFold_of_resolveAll (fc : FeeCalculator) (l : List CellInput) :
    ∀ acc caps, resolveAll fc l = some caps → inputFold fc acc l = sumChecked acc caps := by
  induction l with
  | nil =>
    intro acc caps h
    simp [resolveAll] at h
    subst h
    rfl
  | cons i rest ih =>
    intro acc caps h
    simp only [resolveAll] at h
    cases hc : get_capacity fc i.previous_output with
    | none => rw [hc] at h; simp at h
    | some c =>
      rw [hc] at h
      cases hr : resolveAll fc rest with
      | none => rw [hr] at h; simp at h
      | some caps2 =>
        rw [hr] at h
        simp at h
        subst h
        simp only [inputFold, hc, sumChecked]
        cases hs : safe_add acc c with
        | ok s => exact ih s caps2 hr
        | error e => rfl

theorem inputFold_invalidInput (fc : FeeCalculator) (l1 : List CellInput)
    (i : CellInput) (l2 : List CellInput) :
    ∀ acc caps, resolveAll fc l1 = some caps →
      get_capacity fc i.previous_output = none →
      acc + caps.sum ≤ CAPACITY_MAX →
      inputFold fc acc (l1 ++ i :: l2) = .error .invalidInput := by
  induction l1 with
  | nil =>
    intro acc caps _h hnone _hb
    simp only [List.nil_append, inputFold, hnone]
  | cons j rest ih =>
    intro acc caps h hnone hb
    simp only [resolveAll] at h
    cases hc : get_capacity fc j.previous_output with
    | none => rw [hc] at h; simp at h
    | some c =>
      rw [hc] at h
      cases hr : resolveAll fc rest with
      | none => rw [hr] at h; simp at h
      | some caps2 =>
        rw [hr] at h
        simp at h
        subst h
        simp only [List.cons_append, inputFold, hc, safe_add]
        have hle : acc + c ≤ CAPACITY_MAX := by
          simp [List.sum_cons] at hb
          omega
        rw [if_pos hle]
        apply ih (acc + c) caps2 hr hnone
        simp [List.sum_cons] at hb
        omega

theorem inputFold_ok (fc : FeeCalculator) (l : List CellInput) :
    ∀ acc fee, acc ≤ CAPACITY_MAX → inputFold fc acc l = .ok fee →
      ∃ caps, resolveAll fc l = some caps ∧ fee = acc + caps.sum ∧ fee ≤ CAPACITY_MAX := by
  induction l with
  | nil =>
    intro acc fee hacc h
    simp [inputFold] at h
    exact ⟨[], rfl, by simp [h.symm], by omega⟩
  | cons i rest ih =>
    intro acc fee hacc h
    simp only [inputFold] at h
    cases hc : get_capacity fc i.previous_output with
    | none => rw [hc] at h; simp at h
    | some c =>
      rw [hc] at h
      have h2 : (match safe_add acc c with
          | Except.ok s => inputFold fc s rest
          | Except.error e => Except.error e) = Except.ok fee := h
      cases hs : safe_add acc c with
      | error e =>
        have h3 : (Except.error e : Except AsmError Nat) = Except.ok fee := by
          rw [hs] at h2; exact h2
        simp at h3
      | ok s =>
        have h3 : inputFold fc s rest = Except.ok fee := by
          rw [hs] at h2; exact h2
        have hsval : s = acc + c ∧ acc + c ≤ CAPACITY_MAX := by
          simp only [safe_add] at hs
          by_cases hle : acc + c ≤ CAPACITY_MAX
          · rw [if_pos hle] at hs; exact ⟨by injection hs with h2; omega, hle⟩
          · rw [if_neg hle] at hs; simp at hs
        obtain ⟨hsv, hsb⟩ := hsval
        obtain ⟨caps, hca, hfe, hfb⟩ := ih s fee (by omega) h3
        exact ⟨c :: caps, by simp [resolveAll, hc, hca], by simp [List.sum_cons]; omega, hfb⟩

/-! ## UncleSelector (`prepare_uncles`) -/

/-- The ancestor walk of `prepare_uncles`: starting from the tip's
hash (already in the accumulator), walk back up to `max_uncles_age`
parents, breaking when a block is missing from the store; at each
step add the current block's parent hash and its embedded uncle
hashes to the exclusion set. -/
def excludedWalk (blockOf : Nat → Option Block) : Nat → Nat → List Nat → List Nat
  | 0, _h, acc => acc
  | fuel + 1, h, acc =>
    match blockOf h with
    | some b =>
      excludedWalk blockOf fuel b.header.parent_hash
        (b.header.parent_hash :: (b.uncles.map (fun u => u.header.hash)) ++ acc)
    | none => acc

/-- The candidate-selection loop of `prepare_uncles`: iterate the
candidate cache in order, stop at `max_uncles_num`, classify
wrong-epoch / out-of-window / duplicate / excluded candidates as bad,
select the rest. -/
def selectLoop (epoch : EpochExt) (current_number max_age max_num : Nat)
    (excluded : List Nat) :
    List (Nat × Block) → List UncleBlock → List Nat → List Nat → List UncleBlock × List Nat
  | [], uncles, _included, bad => (uncles, bad)
  | (hash, block) :: rest, uncles, included, bad =>
    if uncles.length = max_num then (uncles, bad)
    else if block.header.difficulty ≠ epoch.difficulty ∨ block.header.epoch ≠ epoch.number then
      selectLoop epoch current_number max_age max_num excluded rest uncles included (bad ++ [hash])
    else if current_number - block.header.number > max_age ∨
        current_number - block.header.number < 1 ∨ hash ∈ included ∨ hash ∈ excluded then
      selectLoop epoch current_number max_age max_num excluded rest uncles included (bad ++ [hash])
    else
      selectLoop epoch current_number max_age max_num excluded rest
        (uncles ++ [{ header := block.header, proposals := block.proposals }])
        (hash :: included) bad

/-- `BlockAssembler::prepare_uncles`. -/
def prepare_uncles (shared : Shared) (candidates : List (Nat × Block))
    (tip : Header) (current_epoch_ext : EpochExt) : List UncleBlock × List Nat :=
  selectLoop current_epoch_ext (tip.number + 1) shared.consensus.max_uncles_age
    shared.consensus.max_uncles_num
    (excludedWalk shared.block shared.consensus.max_uncles_age tip.hash [tip.hash])
    candidates [] [] []

/-! ## Templates and caches -/

/-- `UncleTemplate` view. -/
structure UncleTemplate where
  hash : Nat
  required : Bool
  proposals : List Nat
  header : Header
deriving DecidableEq, Repr, Inhabited

/-- `CellbaseTemplate` view. -/
structure CellbaseTemplate where
  hash : Nat
  cycles : Option String
  data : Transaction
deriving DecidableEq, Repr, Inhabited

/-- `TransactionTemplate` view. -/
structure TransactionTemplate where
  hash : Nat
  required : Bool
  cycles : Option String
  depends : Option (List Nat)
  data : Transaction
deriving DecidableEq, Repr, Inhabited

/-- `BlockTemplate`: numeric fields that may exceed 2^53 are carried
as decimal strings, as on the wire. -/
structure BlockTemplate where
  version : Nat
  difficulty : Nat
  current_time : String
  number : String
  epoch : String
  parent_hash : Nat
  cycles_limit : String
  bytes_limit : String
  uncles_count_limit : Nat
  uncles : List UncleTemplate
  transactions : List TransactionTemplate
  proposals : List Nat
  cellbase : CellbaseTemplate
  work_id : String
deriving DecidableEq, Repr, Inhabited

/-- `BlockAssembler::transform_uncle`. -/
def transform_uncle (u : UncleBlock) : UncleTemplate :=
  { hash := u.header.hash, required := false, proposals := u.proposals, header := u.header }

/-- `BlockAssembler::transform_cellbase`. -/
def transform_cellbase (tx : Transaction) (cycles : Option Nat) : CellbaseTemplate :=
  { hash := tx.hash, cycles := cycles.map Nat.repr, data := tx }

/-- `BlockAssembler::transform_tx`. -/
def transform_tx (pe : PoolEntry) (required : Bool) (depends : Option (List Nat)) :
    TransactionTemplate :=
  { hash := pe.transaction.hash, required := required, cycles := pe.cycles.map Nat.repr,
    depends := depends, data := pe.transaction }

def BLOCK_TEMPLATE_TIMEOUT : Nat := 3000
def TEMPLATE_CACHE_SIZE : Nat := 10
def MAX_CANDIDATE_UNCLES : Nat := 42

/-- One entry of the template cache. -/
structure TemplateCache where
  time : Nat
  uncles_updated_at : Nat
  txs_updated_at : Nat
  template : BlockTemplate
deriving DecidableEq, Repr, Inhabited

/-- `TemplateCache::is_outdate`. -/
def is_outdate (c : TemplateCache) (last_uncles_updated_at last_txs_updated_at
    current_time : Nat) (number : String) : Prop :=
  last_uncles_updated_at ≠ c.uncles_updated_at ∨
    (last_txs_updated_at ≠ c.txs_updated_at ∧
      current_time - c.time > BLOCK_TEMPLATE_TIMEOUT) ∨
    number ≠ c.template.number

instance (c : TemplateCache) (a b d : Nat) (n : String) :
    Decidable (is_outdate c a b d n) := by
  unfold is_outdate; infer_instance

/-! ### LRU maps as ordered association lists

The `lru_cache` crate keeps entries ordered least- to most-recently
used; a read bumps the entry to the most-recent end, an insert removes
any previous binding, appends at the most-recent end, and evicts from
the least-recent end when over capacity. -/

def lruLookup {α β : Type} [DecidableEq α] (l : List (α × β)) (k : α) : Option β :=
  (l.find? (fun p => decide (p.1 = k))).map (fun p => p.2)

def lruGet {α β : Type} [DecidableEq α] (l : List (α × β)) (k : α) :
    Option β × List (α × β) :=
  match l.find? (fun p => decide (p.1 = k)) with
  | some p => (some p.2, l.filter (fun q => decide (q.1 ≠ k)) ++ [(k, p.2)])
  | none => (none, l)

def lruInsert {α β : Type} [DecidableEq α] (cap : Nat) (l : List (α × β)) (k : α) (v : β) :
    List (α × β) :=
  let l2 := l.filter (fun q => decide (q.1 ≠ k)) ++ [(k, v)]
  if cap < l2.length then l2.drop (l2.length - cap) else l2

def lruRemove {α β : Type} [DecidableEq α] (l : List (α × β)) (k : α) : List (α × β) :=
  l.filter (fun q => decide (q.1 ≠ k))

theorem lruGet_fst {α β : Type} [DecidableEq α] (l : List (α × β)) (k : α) :
    (lruGet l k).1 = lruLookup l k := by
  unfold lruGet lruLookup
  cases l.find? (fun p => decide (p.1 = k)) <;> simp

/-! ## The BlockAssembler state and `get_block_template` -/

/-- The mutable state of `BlockAssembler` plus its immutable
configuration and chain handle. -/
structure AsmState where
  shared : Shared
  config_code_hash : Nat
  config_args : List (List Nat)
  proof_size : Nat
  candidate_uncles : List (Nat × Block)
  work_id : Nat
  last_uncles_updated_at : Nat
  template_caches : List ((Nat × Nat × Nat) × TemplateCache)

/-- Outcome of one `get_block_template` request: a template, a
returned error, or an assertion failure (the Rust `assert!` panics;
no value is returned to the caller). -/
inductive BuildOutcome where
  | ok (t : BlockTemplate)
  | err (e : AsmError)
  | assertFail
deriving DecidableEq, Repr, Inhabited

/-- `BlockAssembler::transform_params`: clamp each optional request
parameter with the corresponding consensus cap (Rust `Option::min`
treats `None` as smallest, then `unwrap_or_else` substitutes the cap). -/
def optMin (a b : Option Nat) : Option Nat :=
  match a, b with
  | none, _ => none
  | some _, none => none
  | some x, some y => some (min x y)

def transform_params (c : Consensus) (bytes_limit proposals_limit max_version : Option Nat) :
    Nat × Nat × Nat :=
  ((optMin bytes_limit (some c.max_block_bytes)).getD c.max_block_bytes,
   (optMin proposals_limit (some c.max_block_proposals_limit)).getD c.max_block_proposals_limit,
   (optMin max_version (some c.block_version)).getD c.block_version)

/-- Modelled from the spec: `Header::serialized_size(proof_size)` is
in `ckb_core` (not under `src/`); headers have a fixed serialized size
given the proof size. -/
def headerSerializedSize (proof_size : Nat) : Nat := 208 + 32 * proof_size

/-- Modelled from the spec: `ProposalShortId::serialized_size()` is a
truncated transaction identifier of fixed size. -/
def proposalShortIdSize : Nat := 10

/-- Modelled from the spec: `UncleBlock::serialized_size(proof_size)`
is the uncle's header plus its proposal short-ids. -/
def uncleSerializedSize (proof_size : Nat) (u : UncleBlock) : Nat :=
  headerSerializedSize proof_size + u.proposals.length * proposalShortIdSize

/-- `BlockAssembler::calculate_txs_size_limit`.  The source asserts
`bytes_limit > occupied` (a panic on failure), modelled as `none`. -/
def calculate_txs_size_limit (proof_size bytes_limit : Nat) (uncles : List UncleBlock)
    (proposals : List Nat) : Option Nat :=
  let occupied := headerSerializedSize proof_size +
    (uncles.map (uncleSerializedSize proof_size)).sum +
    proposals.length * proposalShortIdSize
  if occupied < bytes_limit then some (bytes_limit - occupied) else none

/-- The current epoch used by a build: `next_epoch_ext` of the tip if
the epoch boundary was reached, else the stored current epoch. -/
def nextEpoch (shared : Shared) : EpochExt :=
  (shared.next_epoch_ext shared.chain_state.current_epoch_ext
    shared.chain_state.tip_header).getD shared.chain_state.current_epoch_ext

/-- The cellbase lock script built from the configuration. -/
def cellbaseLockOf (st : AsmState) : Script :=
  { args := st.config_args, code_hash := st.config_code_hash }

/-- Modelled from the spec: transaction content hashing is in
`ckb_core` (not under `src/`); the cellbase tx-hash is deterministic
given the new block number (its only varying content here). -/
def cellbaseTxHash (number : Nat) : Nat := number

/-- The checked sum of the per-transaction fees
(`fee = fee.safe_add(calculate_transaction_fee(tx)?)?` over the slice). -/
def sumTxFees (fc : FeeCalculator) : Nat → List PoolEntry → Except AsmError Nat
  | fee, [] => .ok fee
  | fee, pe :: rest =>
    match calculate_transaction_fee fc pe.transaction with
    | .ok f =>
      match safe_add fee f with
      | .ok s => sumTxFees fc s rest
      | .error e => .error e
    | .error e => .error e

/-- `BlockAssembler::create_cellbase_transaction`. -/
def create_cellbase_transaction (shared : Shared) (tip : Header)
    (current_epoch : EpochExt) (pes : List PoolEntry) (lock : Script) :
    Except AsmError Transaction :=
  match current_epoch.block_reward (tip.number + 1) with
  | .error e => .error e
  | .ok block_reward =>
    match sumTxFees (FeeCalculator.new pes shared) 0 pes with
    | .error e => .error e
    | .ok fee =>
      match safe_add block_reward fee with
      | .error e => .error e
      | .ok cap =>
        .ok { hash := cellbaseTxHash (tip.number + 1),
              inputs := [CellInput.new_cellbase_input (tip.number + 1)],
              outputs := [{ capacity := cap, data := [], lock := lock, type_ := none }] }

/-- The template-cache key derived from a parameter triple:
`(cycles_limit, bytes_limit, version)`. -/
def keyOfParams (c : Consensus) (params : Nat × Nat × Nat) : Nat × Nat × Nat :=
  (c.max_block_cycles, params.1, params.2.2)

/-- The key for a raw request. -/
def templateKey (c : Consensus) (b p v : Option Nat) : Nat × Nat × Nat :=
  keyOfParams c (transform_params c b p v)

/-- The bad-uncle list a build computes via `prepare_uncles`. -/
def badUnclesOf (st : AsmState) : List Nat :=
  (prepare_uncles st.shared st.candidate_uncles st.shared.chain_state.tip_header
    (nextEpoch st.shared)).2

/-- The state after the bad-uncle eviction a build performs right
after `prepare_uncles`. -/
def afterUncleRemoval (st : AsmState) : AsmState :=
  { st with candidate_uncles := List.foldl lruRemove st.candidate_uncles (badUnclesOf st) }

/-- The freshly assembled template of a successful build. -/
def freshTemplate (st : AsmState) (wall2 : Nat) (params : Nat × Nat × Nat)
    (tsl : Nat) (cellbase : Transaction) : BlockTemplate :=
  { version := params.2.2,
    difficulty := (nextEpoch st.shared).difficulty,
    current_time := Nat.repr (max wall2 (st.shared.chain_state.tip_header.timestamp + 1)),
    number := Nat.repr (st.shared.chain_state.tip_header.number + 1),
    epoch := Nat.repr (nextEpoch st.shared).number,
    parent_hash := st.shared.chain_state.tip_header.hash,
    cycles_limit := Nat.repr st.shared.consensus.max_block_cycles,
    bytes_limit := Nat.repr params.1,
    uncles_count_limit := st.shared.consensus.max_uncles_num,
    uncles := (prepare_uncles st.shared st.candidate_uncles st.shared.chain_state.tip_header
      (nextEpoch st.shared)).1.map transform_uncle,
    transactions := (st.shared.chain_state.get_staging_txs tsl
      st.shared.consensus.max_block_cycles).map (fun pe => transform_tx pe false none),
    proposals := st.shared.chain_state.get_proposals params.2.1,
    cellbase := transform_cellbase cellbase none,
    work_id := Nat.repr st.work_id }

/-- The fresh-build path of `get_block_template`, entered when the
template cache has no valid entry: select uncles, evict the bad ones,
budget the bytes, snapshot staging transactions, build the cellbase,
re-sample the time, assemble the template, bump the work-id counter
and insert the result into the template cache. -/
def buildFresh (st : AsmState) (wall2 : Nat) (params : Nat × Nat × Nat) :
    BuildOutcome × AsmState :=
  match calculate_txs_size_limit st.proof_size params.1
      (prepare_uncles st.shared st.candidate_uncles st.shared.chain_state.tip_header
        (nextEpoch st.shared)).1
      (st.shared.chain_state.get_proposals params.2.1) with
  | none => (.assertFail, afterUncleRemoval st)
  | some tsl =>
    match create_cellbase_transaction st.shared st.shared.chain_state.tip_header
        (nextEpoch st.shared)
        (st.shared.chain_state.get_staging_txs tsl st.shared.consensus.max_block_cycles)
        (cellbaseLockOf st) with
    | .error e => (.err e, afterUncleRemoval st)
    | .ok cellbase =>
      (.ok (freshTemplate st wall2 params tsl cellbase),
       { afterUncleRemoval st with
           work_id := st.work_id + 1,
           template_caches := lruInsert TEMPLATE_CACHE_SIZE st.template_caches
             (keyOfParams st.shared.consensus params)
             { time := max wall2 (st.shared.chain_state.tip_header.timestamp + 1),
               uncles_updated_at := st.last_uncles_updated_at,
               txs_updated_at := st.shared.chain_state.last_txs_updated_at,
               template := freshTemplate st wall2 params tsl cellbase } })

/-- `get_block_template` with the parameter triple already clamped:
look up the template cache (a read bumps recency), return the cached
clone when it is not outdated, otherwise build fresh. -/
def gBTcore (st : AsmState) (wall1 wall2 : Nat) (params : Nat × Nat × Nat) :
    BuildOutcome × AsmState :=
  let key := keyOfParams st.shared.consensus params
  let got := lruGet st.template_caches key
  let st1 : AsmState := { st with template_caches := got.2 }
  match got.1 with
  | some c =>
    if is_outdate c st.last_uncles_updated_at st.shared.chain_state.last_txs_updated_at
        (max wall1 (st.shared.chain_state.tip_header.timestamp + 1))
        (Nat.repr (st.shared.chain_state.tip_header.number + 1))
    then buildFresh st1 wall2 params
    else (.ok c.template, st1)
  | none => buildFresh st1 wall2 params

/-- `BlockAssembler::get_block_template`.  `wall1` and `wall2` are the
two wall-clock samples (`unix_time_as_millis`), taken before the
mempool snapshot and after cellbase construction. -/
def get_block_template (st : AsmState) (wall1 wall2 : Nat)
    (bytes_limit proposals_limit max_version : Option Nat) : BuildOutcome × AsmState :=
  gBTcore st wall1 wall2 (transform_params st.shared.consensus bytes_limit proposals_limit
    max_version)

/-- Whether a request is served from the template cache. -/
def cacheHit (st : AsmState) (wall1 : Nat) (b p v : Option Nat) : Bool :=
  match lruLookup st.template_caches (templateKey st.shared.consensus b p v) with
  | some c =>
    decide (¬ is_outdate c st.last_uncles_updated_at st.shared.chain_state.last_txs_updated_at
      (max wall1 (st.shared.chain_state.tip_header.timestamp + 1))
      (Nat.repr (st.shared.chain_state.tip_header.number + 1)))
  | none => false

/-! ### Bridging lemmas -/

theorem not_is_outdate_iff (c : TemplateCache) (lua lta ct : Nat) (num : String) :
    ¬ is_outdate c lua lta ct num ↔
      (c.uncles_updated_at = lua ∧
        (c.txs_updated_at = lta ∨ ct - c.time ≤ BLOCK_TEMPLATE_TIMEOUT) ∧
        c.template.number = num) := by
  unfold is_outdate
  constructor
  · intro h
    refine ⟨?_, ?_, ?_⟩
    · by_contra hne
      exact h (Or.inl (fun he => hne he.symm))
    · by_cases ht : c.txs_updated_at = lta
      · exact Or.inl ht
      · right
        by_contra hgt
        push_neg at hgt
        exact h (Or.inr (Or.inl ⟨fun he => ht he.symm, hgt⟩))
    · by_contra hne
      exact h (Or.inr (Or.inr (fun he => hne he.symm)))
  · rintro ⟨h1, h2, h3⟩ (hc | hc | hc)
    · exact hc h1.symm
    · rcases h2 with h2 | h2
      · exact hc.1 h2.symm
      · omega
    · exact hc h3.symm

theorem find?_append_of_none {α : Type} (p : α → Bool) (l1 l2 : List α)
    (h : l1.find? p = none) : (l1 ++ l2).find? p = l2.find? p := by
  induction l1 with
  | nil => simp
  | cons a t ih =>
    rw [List.find?_cons] at h
    cases hp : p a with
    | true => rw [hp] at h; simp at h
    | false =>
      rw [hp] at h
      simp only [List.cons_append, List.find?_cons, hp]
      exact ih h

theorem find?_drop_append {β : Type} (k : Nat × Nat × Nat) (v : β) :
    ∀ (dl : List ((Nat × Nat × Nat) × β)) (d : Nat), d ≤ dl.length →
      (∀ q ∈ dl, q.1 ≠ k) →
      ((dl ++ [(k, v)]).drop d).find? (fun p => decide (p.1 = k)) = some (k, v) := by
  intro dl
  induction dl with
  | nil =>
    intro d hd _h
    have hd0 : d = 0 := Nat.le_zero.mp hd
    subst hd0
    simp
  | cons a t ih =>
    intro d hd hnone
    cases d with
    | zero =>
      have h1 : ((a :: t) : List _).find? (fun p => decide (p.1 = k)) = none := by
        rw [List.find?_eq_none]
        intro x hx
        simp only [decide_eq_true_eq]
        exact hnone x hx
      rw [List.drop_zero]
      rw [find?_append_of_none _ _ _ h1]
      simp
    | succ d2 =>
      simp only [List.cons_append, List.drop_succ_cons]
      exact ih d2 (by simpa using hd) (fun q hq => hnone q (List.mem_cons_of_mem a hq))

theorem lruLookup_lruInsert_self {β : Type} (cap : Nat) (hcap : 1 ≤ cap)
    (l : List ((Nat × Nat × Nat) × β)) (k : Nat × Nat × Nat) (v : β) :
    lruLookup (lruInsert cap l k v) k = some v := by
  unfold lruInsert lruLookup
  have hnone : ∀ q ∈ l.filter (fun q => decide (q.1 ≠ k)), q.1 ≠ k := by
    intro q hq
    have := (List.mem_filter.mp hq).2
    simpa using this
  set fl := l.filter (fun q => decide (q.1 ≠ k)) with hfl
  by_cases hlen : cap < (fl ++ [(k, v)]).length
  · rw [if_pos hlen]
    have hd : (fl ++ [(k, v)]).length - cap ≤ fl.length := by
      have : (fl ++ [(k, v)]).length = fl.length + 1 := by simp
      omega
    rw [find?_drop_append k v fl _ hd hnone]
    rfl
  · rw [if_neg hlen]
    have := find?_drop_append k v fl 0 (Nat.zero_le _) hnone
    rw [List.drop_zero] at this
    rw [this]
    rfl

theorem get_block_template_of_not_hit (st : AsmState) (w1 w2 : Nat) (b p v : Option Nat)
    (h : cacheHit st w1 b p v = false) :
    get_block_template st w1 w2 b p v =
      buildFresh { st with template_caches :=
          (lruGet st.template_caches (templateKey st.shared.consensus b p v)).2 } w2
        (transform_params st.shared.consensus b p v) := by
  unfold cacheHit templateKey at h
  simp only [get_block_template, gBTcore]
  rw [lruGet_fst]
  split
  · rename_i c heq
    rw [heq] at h
    have h2 : decide (¬ is_outdate c st.last_uncles_updated_at
        st.shared.chain_state.last_txs_updated_at
        (max w1 (st.shared.chain_state.tip_header.timestamp + 1))
        (Nat.repr (st.shared.chain_state.tip_header.number + 1))) = false := h
    have h3 : is_outdate c st.last_uncles_updated_at
        st.shared.chain_state.last_txs_updated_at
        (max w1 (st.shared.chain_state.tip_header.timestamp + 1))
        (Nat.repr (st.shared.chain_state.tip_header.number + 1)) := by
      have := of_decide_eq_false h2
      exact not_not.mp this
    rw [if_pos h3]
    rfl
  · rfl

theorem get_block_template_of_hit (st : AsmState) (w1 w2 : Nat) (b p v : Option Nat)
    (c : TemplateCache)
    (hl : lruLookup st.template_caches (templateKey st.shared.consensus b p v) = some c)
    (hv : ¬ is_outdate c st.last_uncles_updated_at st.shared.chain_state.last_txs_updated_at
      (max w1 (st.shared.chain_state.tip_header.timestamp + 1))
      (Nat.repr (st.shared.chain_state.tip_header.number + 1))) :
    get_block_template st w1 w2 b p v =
      (.ok c.template, { st with template_caches :=
        (lruGet st.template_caches (templateKey st.shared.consensus b p v)).2 }) := by
  unfold templateKey at hl
  simp only [get_block_template, gBTcore]
  rw [lruGet_fst]
  split
  · rename_i c2 heq
    have hcc : c2 = c := by
      have := heq.symm.trans hl
      injection this
    subst hcc
    rw [if_neg hv]
    rfl
  · rename_i heq
    exact absurd (heq.symm.trans hl) (by simp)

theorem buildFresh_pair_ok (st : AsmState) (w2 : Nat) (params : Nat × Nat × Nat)
    (t : BlockTemplate) (st2 : AsmState)
    (h : buildFresh st w2 params = (.ok t, st2)) :
    ∃ tsl cellbase,
      calculate_txs_size_limit st.proof_size params.1
        (prepare_uncles st.shared st.candidate_uncles st.shared.chain_state.tip_header
          (nextEpoch st.shared)).1
        (st.shared.chain_state.get_proposals params.2.1) = some tsl ∧
      create_cellbase_transaction st.shared st.shared.chain_state.tip_header
        (nextEpoch st.shared)
        (st.shared.chain_state.get_staging_txs tsl st.shared.consensus.max_block_cycles)
        (cellbaseLockOf st) = .ok cellbase ∧
      t = freshTemplate st w2 params tsl cellbase ∧
      st2 = { afterUncleRemoval st with
                work_id := st.work_id + 1,
                template_caches := lruInsert TEMPLATE_CACHE_SIZE st.template_caches
                  (keyOfParams st.shared.consensus params)
                  { time := max w2 (st.shared.chain_state.tip_header.timestamp + 1),
                    uncles_updated_at := st.last_uncles_updated_at,
                    txs_updated_at := st.shared.chain_state.last_txs_updated_at,
                    template := freshTemplate st w2 params tsl cellbase } } := by
  unfold buildFresh at h
  split at h
  · exact absurd h (by simp)
  · rename_i tsl heq
    split at h
    · exact absurd h (by simp)
    · rename_i cellbase heq2
      simp only [Prod.mk.injEq] at h
      obtain ⟨h1, h2⟩ := h
      injection h1 with h1
      exact ⟨tsl, cellbase, heq, heq2, h1.symm, h2.symm⟩

theorem buildFresh_pair_fail (st : AsmState) (w2 : Nat) (params : Nat × Nat × Nat)
    (o : BuildOutcome) (st2 : AsmState)
    (h : buildFresh st w2 params = (o, st2)) (ho : ∀ t, o ≠ .ok t) :
    st2 = afterUncleRemoval st := by
  unfold buildFresh at h
  split at h
  · simp only [Prod.mk.injEq] at h
    exact h.2.symm
  · rename_i tsl _heq
    split at h
    · simp only [Prod.mk.injEq] at h
      exact h.2.symm
    · rename_i cellbase _heq2
      simp only [Prod.mk.injEq] at h
      exact absurd h.1.symm (ho _)

/-- Soundness invariant for the selection loop of `prepare_uncles`:
every selected uncle matches the epoch, sits in the depth window, is
outside the exclusion set, no hash repeats, and the count never
exceeds `max_num`. -/
theorem selectLoop_sound (epoch : EpochExt) (cn max_age max_num : Nat)
    (excluded : List Nat) :
    ∀ (cands : List (Nat × Block)) (uncles : List UncleBlock) (included bad : List Nat),
      (∀ q ∈ cands, q.1 = q.2.header.hash) →
      (∀ u ∈ uncles, u.header.difficulty = epoch.difficulty ∧ u.header.epoch = epoch.number ∧
        1 ≤ cn - u.header.number ∧ cn - u.header.number ≤ max_age ∧
        u.header.hash ∉ excluded) →
      (∀ u ∈ uncles, u.header.hash ∈ included) →
      (uncles.map (fun u => u.header.hash)).Nodup →
      uncles.length ≤ max_num →
      (∀ u ∈ (selectLoop epoch cn max_age max_num excluded cands uncles included bad).1,
          u.header.difficulty = epoch.difficulty ∧ u.header.epoch = epoch.number ∧
          1 ≤ cn - u.header.number ∧ cn - u.header.number ≤ max_age ∧
          u.header.hash ∉ excluded) ∧
      ((selectLoop epoch cn max_age max_num excluded cands uncles included bad).1.map
        (fun u => u.header.hash)).Nodup ∧
      (selectLoop epoch cn max_age max_num excluded cands uncles included bad).1.length
        ≤ max_num := by
  intro cands
  induction cands with
  | nil =>
    intro uncles included bad _hwf hP hInc hNd hLen
    simp only [selectLoop]
    exact ⟨hP, hNd, hLen⟩
  | cons q rest ih =>
    intro uncles included bad hwf hP hInc hNd hLen
    obtain ⟨hash, block⟩ := q
    have hashEq : hash = block.header.hash := hwf (hash, block) (List.mem_cons_self _ _)
    have hwfRest : ∀ q ∈ rest, q.1 = q.2.header.hash :=
      fun q hq => hwf q (List.mem_cons_of_mem _ hq)
    simp only [selectLoop]
    split
    · exact ⟨hP, hNd, hLen⟩
    · rename_i hFull
      split
      · exact ih uncles included (bad ++ [hash]) hwfRest hP hInc hNd hLen
      · rename_i hEpochOk
        split
        · exact ih uncles included (bad ++ [hash]) hwfRest hP hInc hNd hLen
        · rename_i hWindowOk
          push_neg at hEpochOk hWindowOk
          obtain ⟨hDiff, hEpo⟩ := hEpochOk
          obtain ⟨hAge, hDepth, hNotInc, hNotExc⟩ := hWindowOk
          apply ih _ _ _ hwfRest
          · intro u hu
            rcases List.mem_append.mp hu with hu | hu
            · exact hP u hu
            · have hu0 : u = { header := block.header, proposals := block.proposals } := by
                simpa using hu
              subst hu0
              refine ⟨hDiff, hEpo, hDepth, hAge, ?_⟩
              rw [← hashEq]
              exact hNotExc
          · intro u hu
            rcases List.mem_append.mp hu with hu | hu
            · exact List.mem_cons_of_mem _ (hInc u hu)
            · have hu0 : u = { header := block.header, proposals := block.proposals } := by
                simpa using hu
              subst hu0
              show block.header.hash ∈ hash :: included
              rw [← hashEq]
              exact List.mem_cons_self _ _
          · rw [List.map_append]
            rw [List.nodup_append]
            refine ⟨hNd, by simp, ?_⟩
            intro x hx1 hx2
            simp at hx2
            subst hx2
            rcases List.mem_map.mp hx1 with ⟨u, hu, hux⟩
            apply hNotInc
            rw [← hashEq] at hux
            rw [← hux]
            exact hInc u hu
          · have : uncles.length < max_num := Nat.lt_of_le_of_ne hLen hFull
            simp only [List.length_append, List.length_cons, List.length_nil]
            omega

theorem resolveAll_isSome (fc : FeeCalculator) (l : List CellInput) (caps : List Nat)
    (h : resolveAll fc l = some caps) :
    ∀ i ∈ l, (get_capacity fc i.previous_output).isSome := by
  induction l generalizing caps with
  | nil => intro i hi; simp at hi
  | cons j rest ih =>
    intro i hi
    simp only [resolveAll] at h
    cases hc : get_capacity fc j.previous_output with
    | none => rw [hc] at h; simp at h
    | some c =>
      rw [hc] at h
      cases hr : resolveAll fc rest with
      | none => rw [hr] at h; simp at h
      | some caps2 =>
        rcases List.mem_cons.mp hi with hij | hmem
        · subst hij; rw [hc]; rfl
        · exact ih caps2 hr i hmem

/-- C2: `calculate_transaction_fee` resolves each input via
`get_capacity` (in-slice first, then provider), fails with
`InvalidInput` when an input resolves in neither place, fails with
`InvalidOutput` when the checked output total exceeds the checked
input total, and otherwise returns inputs minus outputs; all
additions and subtractions are checked, so a success implies no
overflow occurred.  The conjuncts follow the code's evaluation order:
capacities are accumulated left to right, so each error condition is
stated relative to the checked sums reached before it. -/
theorem c2_calculate_transaction_fee (pes : List PoolEntry)
    (getTx : Nat → Option (Transaction × Nat)) (tx : Transaction) :
    (∀ caps, resolveAll ⟨pes, getTx⟩ tx.inputs = some caps →
        caps.sum ≤ CAPACITY_MAX →
        (tx.outputs.map (fun o => o.capacity)).sum ≤ caps.sum →
        calculate_transaction_fee ⟨pes, getTx⟩ tx =
          .ok (caps.sum - (tx.outputs.map (fun o => o.capacity)).sum)) ∧
    (∀ pre bad rest caps, tx.inputs = pre ++ bad :: rest →
        resolveAll ⟨pes, getTx⟩ pre = some caps →
        get_capacity ⟨pes, getTx⟩ bad.previous_output = none →
        caps.sum ≤ CAPACITY_MAX →
        calculate_transaction_fee ⟨pes, getTx⟩ tx = .error .invalidInput) ∧
    (∀ caps, resolveAll ⟨pes, getTx⟩ tx.inputs = some caps →
        caps.sum ≤ CAPACITY_MAX →
        (tx.outputs.map (fun o => o.capacity)).sum ≤ CAPACITY_MAX →
        caps.sum < (tx.outputs.map (fun o => o.capacity)).sum →
        calculate_transaction_fee ⟨pes, getTx⟩ tx = .error .invalidOutput) ∧
    (∀ fee, calculate_transaction_fee ⟨pes, getTx⟩ tx = .ok fee →
        ∃ caps, resolveAll ⟨pes, getTx⟩ tx.inputs = some caps ∧
          caps.sum ≤ CAPACITY_MAX ∧
          (tx.outputs.map (fun o => o.capacity)).sum ≤ caps.sum ∧
          fee = caps.sum - (tx.outputs.map (fun o => o.capacity)).sum) := by
  refine ⟨?_, ?_, ?_, ?_⟩
  · intro caps hres hb hout
    have h1 : inputFold ⟨pes, getTx⟩ 0 tx.inputs = .ok caps.sum := by
      rw [inputFold_of_resolveAll _ _ 0 caps hres, sumChecked_eq caps 0 (Nat.zero_le _),
        if_pos (by omega : 0 + caps.sum ≤ CAPACITY_MAX)]
      simp
    have h2 : sumChecked 0 (tx.outputs.map (fun o => o.capacity)) =
        .ok (tx.outputs.map (fun o => o.capacity)).sum := by
      rw [sumChecked_eq _ 0 (Nat.zero_le _),
        if_pos (by omega : 0 + (tx.outputs.map (fun o => o.capacity)).sum ≤ CAPACITY_MAX)]
      simp
    simp only [calculate_transaction_fee, h1, h2]
    rw [if_neg (by omega)]
    unfold safe_sub
    rw [if_pos hout]
  · intro pre bad rest caps hin hres hnone hb
    have h1 : inputFold ⟨pes, getTx⟩ 0 tx.inputs = .error .invalidInput := by
      rw [hin]
      exact inputFold_invalidInput _ pre bad rest 0 caps hres hnone (by omega)
    simp only [calculate_transaction_fee, h1]
  · intro caps hres hb hob hlt
    have h1 : inputFold ⟨pes, getTx⟩ 0 tx.inputs = .ok caps.sum := by
      rw [inputFold_of_resolveAll _ _ 0 caps hres, sumChecked_eq caps 0 (Nat.zero_le _),
        if_pos (by omega : 0 + caps.sum ≤ CAPACITY_MAX)]
      simp
    have h2 : sumChecked 0 (tx.outputs.map (fun o => o.capacity)) =
        .ok (tx.outputs.map (fun o => o.capacity)).sum := by
      rw [sumChecked_eq _ 0 (Nat.zero_le _),
        if_pos (by omega : 0 + (tx.outputs.map (fun o => o.capacity)).sum ≤ CAPACITY_MAX)]
      simp
    simp only [calculate_transaction_fee, h1, h2]
    rw [if_pos (by omega)]
  · intro fee hok
    simp only [calculate_transaction_fee] at hok
    cases hIF : inputFold ⟨pes, getTx⟩ 0 tx.inputs with
    | error e => simp only [hIF] at hok; simp at hok
    | ok fee2 =>
      simp only [hIF] at hok
      obtain ⟨caps, hres, hfeq, hfb⟩ := inputFold_ok _ tx.inputs 0 fee2 (Nat.zero_le _) hIF
      cases hSC : sumChecked 0 (tx.outputs.map (fun o => o.capacity)) with
      | error e => simp only [hSC] at hok; simp at hok
      | ok spent =>
        simp only [hSC] at hok
        have hSC2 := sumChecked_eq (tx.outputs.map (fun o => o.capacity)) 0 (Nat.zero_le _)
        rw [hSC] at hSC2
        by_cases hOB : 0 + (tx.outputs.map (fun o => o.capacity)).sum ≤ CAPACITY_MAX
        · rw [if_pos hOB] at hSC2
          injection hSC2 with hsp
          by_cases hgt : spent > fee2
          · rw [if_pos hgt] at hok
            simp at hok
          · rw [if_neg hgt] at hok
            unfold safe_sub at hok
            rw [if_pos (by omega)] at hok
            injection hok with hfee
            exact ⟨caps, hres, by omega, by omega, by omega⟩
        · rw [if_neg hOB] at hSC2
          exact absurd hSC2 (by simp)

/-- C10 (amended): a transaction with a capacity-less (header-only)
input never yields a fee; the failure is `InvalidInput` provided each
earlier input resolves and the checked sum of those capacities does
not overflow (an earlier failure is otherwise reported instead). -/
theorem c10_headerdep_fails (pes : List PoolEntry)
    (getTx : Nat → Option (Transaction × Nat)) (tx : Transaction) :
    (∀ pre bad rest caps, tx.inputs = pre ++ bad :: rest →
        bad.previous_output.cell = none →
        resolveAll ⟨pes, getTx⟩ pre = some caps →
        caps.sum ≤ CAPACITY_MAX →
        calculate_transaction_fee ⟨pes, getTx⟩ tx = .error .invalidInput) ∧
    (∀ bad, bad ∈ tx.inputs → bad.previous_output.cell = none →
        ∀ fee, calculate_transaction_fee ⟨pes, getTx⟩ tx ≠ .ok fee) := by
  constructor
  · intro pre bad rest caps hin hcell hres hb
    have hnone : get_capacity ⟨pes, getTx⟩ bad.previous_output = none := by
      simp only [get_capacity, hcell]
    have h1 : inputFold ⟨pes, getTx⟩ 0 tx.inputs = .error .invalidInput := by
      rw [hin]
      exact inputFold_invalidInput _ pre bad rest 0 caps hres hnone (by omega)
    simp only [calculate_transaction_fee, h1]
  · intro bad hmem hcell fee hok
    simp only [calculate_transaction_fee] at hok
    cases hIF : inputFold ⟨pes, getTx⟩ 0 tx.inputs with
    | error e => simp only [hIF] at hok; simp at hok
    | ok fee2 =>
      obtain ⟨caps, hres, _hfeq, _hfb⟩ := inputFold_ok _ tx.inputs 0 fee2 (Nat.zero_le _) hIF
      have hsome := resolveAll_isSome _ tx.inputs caps hres bad hmem
      rw [show get_capacity ⟨pes, getTx⟩ bad.previous_output = none by
        simp only [get_capacity, hcell]] at hsome
      simp at hsome

/-- C3: every uncle selected by `prepare_uncles` matches the current
epoch's difficulty and number, has depth `tip.number + 1 - u.number`
in `[1, max_uncles_age]`, has a hash outside the ancestor and
embedded-uncle exclusion walk, no hash repeats within the selection,
and at most `max_uncles_num` uncles are selected.  The hypothesis
states the candidate-cache well-formedness maintained by uncle
ingestion: each entry is keyed by its header hash. -/
theorem c3_prepare_uncles (shared : Shared) (cands : List (Nat × Block)) (tip : Header)
    (epoch : EpochExt) (hwf : ∀ q ∈ cands, q.1 = q.2.header.hash) :
    (∀ u ∈ (prepare_uncles shared cands tip epoch).1,
        u.header.difficulty = epoch.difficulty ∧ u.header.epoch = epoch.number ∧
        1 ≤ tip.number + 1 - u.header.number ∧
        tip.number + 1 - u.header.number ≤ shared.consensus.max_uncles_age ∧
        u.header.hash ∉ excludedWalk shared.block shared.consensus.max_uncles_age tip.hash
          [tip.hash]) ∧
    ((prepare_uncles shared cands tip epoch).1.map (fun u => u.header.hash)).Nodup ∧
    (prepare_uncles shared cands tip epoch).1.length ≤ shared.consensus.max_uncles_num := by
  unfold prepare_uncles
  exact selectLoop_sound epoch (tip.number + 1) shared.consensus.max_uncles_age
    shared.consensus.max_uncles_num
    (excludedWalk shared.block shared.consensus.max_uncles_age tip.hash [tip.hash])
    cands [] [] [] hwf (by simp) (by simp) (by simp) (by simp)

/-- C7: a request limit exceeding its consensus cap yields the same
result as passing none for that field; `transform_params` maps a
provided value to `min(value, cap)` and an absent value to the cap. -/
theorem c7_clamp_equivalence (st : AsmState) (w1 w2 : Nat) (b p v : Option Nat) (x : Nat) :
    (st.shared.consensus.max_block_bytes ≤ x →
      get_block_template st w1 w2 (some x) p v = get_block_template st w1 w2 none p v) ∧
    (st.shared.consensus.max_block_proposals_limit ≤ x →
      get_block_template st w1 w2 b (some x) v = get_block_template st w1 w2 b none v) ∧
    (st.shared.consensus.block_version ≤ x →
      get_block_template st w1 w2 b p (some x) = get_block_template st w1 w2 b p none) ∧
    (transform_params st.shared.consensus (some x) p v).1 =
      min x st.shared.consensus.max_block_bytes ∧
    (transform_params st.shared.consensus none p v).1 =
      st.shared.consensus.max_block_bytes ∧
    (transform_params st.shared.consensus b (some x) v).2.1 =
      min x st.shared.consensus.max_block_proposals_limit ∧
    (transform_params st.shared.consensus b none v).2.1 =
      st.shared.consensus.max_block_proposals_limit ∧
    (transform_params st.shared.consensus b p (some x)).2.2 =
      min x st.shared.consensus.block_version ∧
    (transform_params st.shared.consensus b p none).2.2 =
      st.shared.consensus.block_version := by
  refine ⟨?_, ?_, ?_, rfl, rfl, rfl, rfl, rfl, rfl⟩
  · intro hx
    have hp : transform_params st.shared.consensus (some x) p v =
        transform_params st.shared.consensus none p v := by
      simp only [transform_params, optMin, Option.getD_some, Option.getD_none]
      rw [min_eq_right hx]
    unfold get_block_template
    rw [hp]
  · intro hx
    have hp : transform_params st.shared.consensus b (some x) v =
        transform_params st.shared.consensus b none v := by
      simp only [transform_params, optMin, Option.getD_some, Option.getD_none]
      rw [min_eq_right hx]
    unfold get_block_template
    rw [hp]
  · intro hx
    have hp : transform_params st.shared.consensus b p (some x) =
        transform_params st.shared.consensus b p none := by
      simp only [transform_params, optMin, Option.getD_some, Option.getD_none]
      rw [min_eq_right hx]
    unfold get_block_template
    rw [hp]

theorem create_cellbase_transaction_inv (shared : Shared) (tip : Header)
    (epoch : EpochExt) (pes : List PoolEntry) (lock : Script) (tx : Transaction)
    (h : create_cellbase_transaction shared tip epoch pes lock = .ok tx) :
    ∃ reward fee cap, epoch.block_reward (tip.number + 1) = .ok reward ∧
      sumTxFees (FeeCalculator.new pes shared) 0 pes = .ok fee ∧
      safe_add reward fee = .ok cap ∧
      tx = { hash := cellbaseTxHash (tip.number + 1),
             inputs := [CellInput.new_cellbase_input (tip.number + 1)],
             outputs := [{ capacity := cap, data := [], lock := lock, type_ := none }] } := by
  unfold create_cellbase_transaction at h
  split at h
  · exact absurd h (by simp)
  · rename_i reward hbr
    split at h
    · exact absurd h (by simp)
    · rename_i fee hfee
      split at h
      · exact absurd h (by simp)
      · rename_i cap hadd
        injection h with h
        exact ⟨reward, fee, cap, hbr, hfee, hadd, h.symm⟩

/-- C1: a successful fresh build's cellbase has exactly one input (the
synthetic cellbase input encoding the new block number) and exactly
one output whose capacity is the checked sum of
`block_reward(tip.number + 1)` and the checked total of the selected
transactions' fees, with empty data, the configured lock script and no
type script; the selected transactions are exactly the ones shown in
the template. -/
theorem c1_cellbase_shape (st : AsmState) (w1 w2 : Nat) (b p v : Option Nat)
    (t : BlockTemplate)
    (hmiss : cacheHit st w1 b p v = false)
    (hok : (get_block_template st w1 w2 b p v).1 = .ok t) :
    ∃ tsl reward fee cap,
      calculate_txs_size_limit st.proof_size (transform_params st.shared.consensus b p v).1
        (prepare_uncles st.shared st.candidate_uncles st.shared.chain_state.tip_header
          (nextEpoch st.shared)).1
        (st.shared.chain_state.get_proposals (transform_params st.shared.consensus b p v).2.1)
        = some tsl ∧
      (nextEpoch st.shared).block_reward (st.shared.chain_state.tip_header.number + 1)
        = .ok reward ∧
      sumTxFees (FeeCalculator.new (st.shared.chain_state.get_staging_txs tsl
          st.shared.consensus.max_block_cycles) st.shared) 0
        (st.shared.chain_state.get_staging_txs tsl st.shared.consensus.max_block_cycles)
        = .ok fee ∧
      safe_add reward fee = .ok cap ∧
      t.cellbase.data.inputs =
        [CellInput.new_cellbase_input (st.shared.chain_state.tip_header.number + 1)] ∧
      t.cellbase.data.outputs =
        [{ capacity := cap, data := [], lock := cellbaseLockOf st, type_ := none }] ∧
      t.transactions = (st.shared.chain_state.get_staging_txs tsl
        st.shared.consensus.max_block_cycles).map (fun pe => transform_tx pe false none) := by
  rw [get_block_template_of_not_hit st w1 w2 b p v hmiss] at hok
  have hfull : buildFresh { st with template_caches :=
        (lruGet st.template_caches (templateKey st.shared.consensus b p v)).2 } w2
      (transform_params st.shared.consensus b p v) =
      (.ok t, (buildFresh { st with template_caches :=
        (lruGet st.template_caches (templateKey st.shared.consensus b p v)).2 } w2
      (transform_params st.shared.consensus b p v)).2) := by
    rw [← hok]
  obtain ⟨tsl, cellbase, hcalc, hcb, ht, _hst2⟩ := buildFresh_pair_ok _ _ _ _ _ hfull
  obtain ⟨reward, fee, cap, hbr, hfee, hadd, htx⟩ :=
    create_cellbase_transaction_inv _ _ _ _ _ _ hcb
  subst ht
  refine ⟨tsl, reward, fee, cap, hcalc, hbr, hfee, hadd, ?_, ?_, rfl⟩
  · show cellbase.inputs = _
    rw [htx]
  · show cellbase.outputs = _
    rw [htx]
    rfl

/-- C9: a fresh build records in the template the later of the two
wall-clock samples, clamped below by `tip.timestamp + 1`; in
particular the recorded time is at least `tip.timestamp + 1`. -/
theorem c9_current_time (st : AsmState) (w1 w2 : Nat) (b p v : Option Nat)
    (t : BlockTemplate)
    (hmiss : cacheHit st w1 b p v = false)
    (hok : (get_block_template st w1 w2 b p v).1 = .ok t) :
    t.current_time = Nat.repr (max w2 (st.shared.chain_state.tip_header.timestamp + 1)) ∧
    st.shared.chain_state.tip_header.timestamp + 1
      ≤ max w2 (st.shared.chain_state.tip_header.timestamp + 1) := by
  rw [get_block_template_of_not_hit st w1 w2 b p v hmiss] at hok
  have hfull : buildFresh { st with template_caches :=
        (lruGet st.template_caches (templateKey st.shared.consensus b p v)).2 } w2
      (transform_params st.shared.consensus b p v) =
      (.ok t, (buildFresh { st with template_caches :=
        (lruGet st.template_caches (templateKey st.shared.consensus b p v)).2 } w2
      (transform_params st.shared.consensus b p v)).2) := by
    rw [← hok]
  obtain ⟨tsl, cellbase, _hcalc, _hcb, ht, _hst2⟩ := buildFresh_pair_ok _ _ _ _ _ hfull
  subst ht
  exact ⟨rfl, Nat.le_max_right _ _⟩

/-- A successful fresh build emits the current work-id counter as a
decimal string and bumps the counter by one. -/
theorem gbt_fresh_ok_work_id (st : AsmState) (w1 w2 : Nat) (b p v : Option Nat)
    (t : BlockTemplate)
    (hmiss : cacheHit st w1 b p v = false)
    (hok : (get_block_template st w1 w2 b p v).1 = .ok t) :
    t.work_id = Nat.repr st.work_id ∧
    (get_block_template st w1 w2 b p v).2.work_id = st.work_id + 1 := by
  rw [get_block_template_of_not_hit st w1 w2 b p v hmiss] at hok ⊢
  have hfull : buildFresh { st with template_caches :=
        (lruGet st.template_caches (templateKey st.shared.consensus b p v)).2 } w2
      (transform_params st.shared.consensus b p v) =
      (.ok t, (buildFresh { st with template_caches :=
        (lruGet st.template_caches (templateKey st.shared.consensus b p v)).2 } w2
      (transform_params st.shared.consensus b p v)).2) := by
    rw [← hok]
  obtain ⟨tsl, cellbase, _hcalc, _hcb, ht, hst2⟩ := buildFresh_pair_ok _ _ _ _ _ hfull
  subst ht
  rw [hst2]
  exact ⟨rfl, rfl⟩

/-- C4: given a cache entry at the key `(cycles_limit, clamped
bytes_limit, clamped version)`, the entry's template is returned
without rebuilding (work-id counter untouched) exactly when its
uncle watermark matches, its transaction watermark matches or the
entry is at most 3000 ms old, and its number is the new block number;
otherwise a successful request builds fresh, bumps the counter and
inserts the new entry at that key. -/
theorem c4_template_cache (st : AsmState) (w1 w2 : Nat) (b p v : Option Nat)
    (c : TemplateCache)
    (hc : lruLookup st.template_caches (templateKey st.shared.consensus b p v) = some c) :
    (((get_block_template st w1 w2 b p v).1 = .ok c.template ∧
        (get_block_template st w1 w2 b p v).2.work_id = st.work_id) ↔
      (c.uncles_updated_at = st.last_uncles_updated_at ∧
        (c.txs_updated_at = st.shared.chain_state.last_txs_updated_at ∨
          max w1 (st.shared.chain_state.tip_header.timestamp + 1) - c.time
            ≤ BLOCK_TEMPLATE_TIMEOUT) ∧
        c.template.number = Nat.repr (st.shared.chain_state.tip_header.number + 1))) ∧
    (¬ (c.uncles_updated_at = st.last_uncles_updated_at ∧
        (c.txs_updated_at = st.shared.chain_state.last_txs_updated_at ∨
          max w1 (st.shared.chain_state.tip_header.timestamp + 1) - c.time
            ≤ BLOCK_TEMPLATE_TIMEOUT) ∧
        c.template.number = Nat.repr (st.shared.chain_state.tip_header.number + 1)) →
      ∀ t, (get_block_template st w1 w2 b p v).1 = .ok t →
        lruLookup (get_block_template st w1 w2 b p v).2.template_caches
          (templateKey st.shared.consensus b p v) =
          some { time := max w2 (st.shared.chain_state.tip_header.timestamp + 1),
                 uncles_updated_at := st.last_uncles_updated_at,
                 txs_updated_at := st.shared.chain_state.last_txs_updated_at,
                 template := t } ∧
        (get_block_template st w1 w2 b p v).2.work_id = st.work_id + 1) := by
  by_cases hv : is_outdate c st.last_uncles_updated_at
      st.shared.chain_state.last_txs_updated_at
      (max w1 (st.shared.chain_state.tip_header.timestamp + 1))
      (Nat.repr (st.shared.chain_state.tip_header.number + 1))
  · have hmiss : cacheHit st w1 b p v = false := by
      simp only [cacheHit, hc, decide_eq_false_iff_not, not_not]
      exact hv
    constructor
    · constructor
      · rintro ⟨h1, h2⟩
        exfalso
        rw [get_block_template_of_not_hit st w1 w2 b p v hmiss] at h1 h2
        have hfull : buildFresh { st with template_caches :=
              (lruGet st.template_caches (templateKey st.shared.consensus b p v)).2 } w2
            (transform_params st.shared.consensus b p v) =
            (.ok c.template, (buildFresh { st with template_caches :=
              (lruGet st.template_caches (templateKey st.shared.consensus b p v)).2 } w2
            (transform_params st.shared.consensus b p v)).2) := by
          rw [← h1]
        obtain ⟨_tsl, _cb, _hcalc, _hcb, _ht, hst2⟩ := buildFresh_pair_ok _ _ _ _ _ hfull
        rw [hst2] at h2
        have h3 : st.work_id + 1 = st.work_id := h2
        omega
      · intro hvalid
        exact absurd ((not_is_outdate_iff c _ _ _ _).mpr hvalid) (not_not.mpr hv)
    · intro _hnv t ht
      rw [get_block_template_of_not_hit st w1 w2 b p v hmiss] at ht ⊢
      have hfull : buildFresh { st with template_caches :=
            (lruGet st.template_caches (templateKey st.shared.consensus b p v)).2 } w2
          (transform_params st.shared.consensus b p v) =
          (.ok t, (buildFresh { st with template_caches :=
            (lruGet st.template_caches (templateKey st.shared.consensus b p v)).2 } w2
          (transform_params st.shared.consensus b p v)).2) := by
        rw [← ht]
      obtain ⟨tsl, cellbase, _hcalc, _hcb, htt, hst2⟩ := buildFresh_pair_ok _ _ _ _ _ hfull
      rw [hst2]
      constructor
      · subst htt
        exact lruLookup_lruInsert_self TEMPLATE_CACHE_SIZE
          (by norm_num [TEMPLATE_CACHE_SIZE]) _ _ _
      · rfl
  · have hred := get_block_template_of_hit st w1 w2 b p v c hc hv
    constructor
    · constructor
      · intro _h
        exact (not_is_outdate_iff c _ _ _ _).mp hv
      · intro _h
        rw [hred]
        exact ⟨rfl, rfl⟩
    · intro hnv
      exact absurd ((not_is_outdate_iff c _ _ _ _).mp hv) hnv

/-- C5 (amended): when the clamped bytes limit does not exceed the
occupied size (serialized header plus serialized uncles plus
proposal short-ids), the build aborts through the source's
`assert!` — an assertion failure (panic), not a returned
`Configuration` error value. -/
theorem c5_bytes_limit_assert (st : AsmState) (w1 w2 : Nat) (b p v : Option Nat)
    (hmiss : cacheHit st w1 b p v = false)
    (hocc : (transform_params st.shared.consensus b p v).1 ≤
      headerSerializedSize st.proof_size +
      ((prepare_uncles st.shared st.candidate_uncles st.shared.chain_state.tip_header
        (nextEpoch st.shared)).1.map (uncleSerializedSize st.proof_size)).sum +
      (st.shared.chain_state.get_proposals
        (transform_params st.shared.consensus b p v).2.1).length * proposalShortIdSize) :
    (get_block_template st w1 w2 b p v).1 = .assertFail ∧
    (get_block_template st w1 w2 b p v).1 ≠ .err .configuration := by
  rw [get_block_template_of_not_hit st w1 w2 b p v hmiss]
  have hnone : calculate_txs_size_limit st.proof_size
      (transform_params st.shared.consensus b p v).1
      (prepare_uncles st.shared st.candidate_uncles st.shared.chain_state.tip_header
        (nextEpoch st.shared)).1
      (st.shared.chain_state.get_proposals
        (transform_params st.shared.consensus b p v).2.1) = none := by
    unfold calculate_txs_size_limit
    rw [if_neg (by omega)]
  constructor
  · simp only [buildFresh, hnone]
  · simp only [buildFresh, hnone]
    simp

/-- C6 (amended): a build whose cellbase/fee phase fails returns the
error to the caller; the candidate-uncle cache after the failing
build equals the cache with exactly the bad uncles identified by
`prepare_uncles` removed (so the fee failure itself evicts nothing,
and nothing is evicted when no candidate was classified bad); the
work-id counter is untouched and no template is inserted. -/
theorem c6_fee_failure_eviction (st : AsmState) (w1 w2 : Nat) (b p v : Option Nat)
    (e : AsmError)
    (hmiss : cacheHit st w1 b p v = false)
    (herr : (get_block_template st w1 w2 b p v).1 = .err e) :
    (get_block_template st w1 w2 b p v).2.candidate_uncles =
      List.foldl lruRemove st.candidate_uncles
        (prepare_uncles st.shared st.candidate_uncles st.shared.chain_state.tip_header
          (nextEpoch st.shared)).2 ∧
    (get_block_template st w1 w2 b p v).2.work_id = st.work_id ∧
    (get_block_template st w1 w2 b p v).2.template_caches =
      (lruGet st.template_caches (templateKey st.shared.consensus b p v)).2 := by
  rw [get_block_template_of_not_hit st w1 w2 b p v hmiss] at herr ⊢
  have hfull : buildFresh { st with template_caches :=
        (lruGet st.template_caches (templateKey st.shared.consensus b p v)).2 } w2
      (transform_params st.shared.consensus b p v) =
      (.err e, (buildFresh { st with template_caches :=
        (lruGet st.template_caches (templateKey st.shared.consensus b p v)).2 } w2
      (transform_params st.shared.consensus b p v)).2) := by
    rw [← herr]
  have hst2 := buildFresh_pair_fail _ _ _ _ _ hfull (fun t h => by cases h)
  rw [hst2]
  exact ⟨rfl, rfl, rfl⟩

/-- C8 (amended): across successive successful fresh (non-cached)
builds the work-id strictly increases: each fresh build emits the
process-lifetime counter as a decimal string and bumps it, so the
counter of the second build is strictly greater.  (A cache hit
re-emits the cached work-id unchanged, so strict increase holds for
fresh builds, not for arbitrary successive calls.) -/
theorem c8_work_id_increases (st : AsmState) (w1 w2 w3 w4 : Nat)
    (b p v b2 p2 v2 : Option Nat) (t1 t2 : BlockTemplate)
    (h1m : cacheHit st w1 b p v = false)
    (h1 : (get_block_template st w1 w2 b p v).1 = .ok t1)
    (h2m : cacheHit (get_block_template st w1 w2 b p v).2 w3 b2 p2 v2 = false)
    (h2 : (get_block_template (get_block_template st w1 w2 b p v).2 w3 w4 b2 p2 v2).1
      = .ok t2) :
    t1.work_id = Nat.repr st.work_id ∧
    t2.work_id = Nat.repr (get_block_template st w1 w2 b p v).2.work_id ∧
    st.work_id < (get_block_template st w1 w2 b p v).2.work_id := by
  obtain ⟨ha1, ha2⟩ := gbt_fresh_ok_work_id st w1 w2 b p v t1 h1m h1
  obtain ⟨hb1, _hb2⟩ := gbt_fresh_ok_work_id _ w3 w4 b2 p2 v2 t2 h2m h2
  exact ⟨ha1, hb1, by omega⟩

/-! ## Concrete fixtures used by witnesses and counterexamples -/

def demoEpoch : EpochExt :=
  { number := 0, difficulty := 100, length := 1000, block_reward := fun _ => .ok 500 }

def demoTip : Header :=
  { number := 0, hash := 10, parent_hash := 9, timestamp := 50, epoch := 0,
    difficulty := 100, transactions_root := 0 }

def demoConsensus : Consensus :=
  { max_block_cycles := 1000000, max_block_bytes := 100000,
    max_block_proposals_limit := 50, block_version := 5,
    max_uncles_num := 2, max_uncles_age := 6 }

def demoChainState : ChainState :=
  { tip_header := demoTip, last_txs_updated_at := 7, current_epoch_ext := demoEpoch,
    get_proposals := fun _ => [], get_staging_txs := fun _ _ => [] }

def demoShared : Shared :=
  { consensus := demoConsensus, block := fun _ => none, get_transaction := fun _ => none,
    next_epoch_ext := fun _ _ => none, chain_state := demoChainState }

def demoState : AsmState :=
  { shared := demoShared, config_code_hash := 42, config_args := [], proof_size := 0,
    candidate_uncles := [], work_id := 0, last_uncles_updated_at := 3,
    template_caches := [] }

def outcomeTemplate : BuildOutcome → Option BlockTemplate
  | .ok t => some t
  | _ => none

def demoRun1 : BuildOutcome × AsmState := get_block_template demoState 1 2 none none none

def demoT1 : BlockTemplate := (outcomeTemplate demoRun1.1).getD default

theorem c1_cellbase_shape_witness :
    demoT1.cellbase.data.inputs = [CellInput.new_cellbase_input 1] ∧
    demoT1.cellbase.data.outputs =
      [{ capacity := 500, data := [], lock := { args := [], code_hash := 42 },
         type_ := none }] := by
  obtain ⟨tsl, reward, fee, cap, _hcalc, hbr, hfee, hadd, hin, hout, _htx⟩ :=
    c1_cellbase_shape demoState 1 2 none none none demoT1 rfl rfl
  have h2 : (Except.ok 500 : Except AsmError Nat) = .ok reward := hbr
  injection h2 with h3
  subst h3
  have h4 : (Except.ok 0 : Except AsmError Nat) = .ok fee := hfee
  injection h4 with h5
  subst h5
  have h6 : (Except.ok 500 : Except AsmError Nat) = .ok cap := hadd
  injection h6 with h7
  subst h7
  exact ⟨hin, hout⟩

theorem c9_current_time_witness : demoT1.current_time = "51" := by
  have h := (c9_current_time demoState 1 2 none none none demoT1 rfl rfl).1
  exact h.trans rfl

theorem c7_clamp_equivalence_witness :
    get_block_template demoState 1 2 (some 100001) none none =
      get_block_template demoState 1 2 none none none :=
  (c7_clamp_equivalence demoState 1 2 none none none 100001).1 (by decide)

def c8Run2 : BuildOutcome × AsmState := get_block_template demoRun1.2 60 61 none none none

def outcomeWorkId : BuildOutcome → Option String
  | .ok t => some t.work_id
  | _ => none

theorem c8_counterexample :
    outcomeWorkId demoRun1.1 = some "0" ∧ outcomeWorkId c8Run2.1 = some "0" :=
  ⟨rfl, rfl⟩

def c8T2 : BlockTemplate :=
  (outcomeTemplate (get_block_template demoRun1.2 60 61 none none (some 3)).1).getD default

theorem c8_work_id_increases_witness :
    demoT1.work_id = Nat.repr demoState.work_id ∧
    demoState.work_id < (get_block_template demoState 1 2 none none none).2.work_id := by
  have h := c8_work_id_increases demoState 1 2 60 61 none none none none none (some 3)
    demoT1 c8T2 rfl rfl rfl rfl
  exact ⟨h.1, h.2.2⟩

def c4CachedTemplate : BlockTemplate :=
  { version := 5, difficulty := 100, current_time := "41", number := "1", epoch := "0",
    parent_hash := 10, cycles_limit := "1000000", bytes_limit := "100000",
    uncles_count_limit := 2, uncles := [], transactions := [], proposals := [],
    cellbase := { hash := 1, cycles := none,
                  data := { hash := 1, inputs := [], outputs := [] } },
    work_id := "7" }

def c4Entry : TemplateCache :=
  { time := 40, uncles_updated_at := 3, txs_updated_at := 7, template := c4CachedTemplate }

def c4State : AsmState :=
  { demoState with template_caches := [((1000000, 100000, 5), c4Entry)] }

theorem c4_template_cache_witness :
    (get_block_template c4State 41 42 none none none).1 = .ok c4CachedTemplate ∧
    (get_block_template c4State 41 42 none none none).2.work_id = c4State.work_id := by
  have h := (c4_template_cache c4State 41 42 none none none c4Entry rfl).1
  exact h.mpr ⟨rfl, Or.inl rfl, rfl⟩

def c5State : AsmState :=
  { demoState with shared :=
      { demoShared with consensus := { demoConsensus with max_block_bytes := 10 } } }

theorem c5_counterexample :
    (transform_params c5State.shared.consensus none none none).1 = 10 ∧
    (get_block_template c5State 1 2 none none none).1 = .assertFail ∧
    (get_block_template c5State 1 2 none none none).1 ≠ .err .configuration := by
  refine ⟨rfl, rfl, ?_⟩
  intro h
  have h2 : (BuildOutcome.assertFail : BuildOutcome) = .err .configuration := h
  cases h2

theorem c5_bytes_limit_assert_witness :
    (get_block_template c5State 1 2 none none none).1 = .assertFail :=
  (c5_bytes_limit_assert c5State 1 2 none none none rfl (by decide)).1

def c6UncleHeader : Header :=
  { number := 0, hash := 20, parent_hash := 9, timestamp := 40, epoch := 0,
    difficulty := 999, transactions_root := 0 }

def c6Candidate : Block :=
  { header := c6UncleHeader, transactions := [], uncles := [], proposals := [] }

def c6BadTx : Transaction :=
  { hash := 60,
    inputs := [{ previous_output :=
      { cell := some { tx_hash := 77, index := 0 }, block_hash := none }, args := [] }],
    outputs := [] }

def c6Entry : PoolEntry := { transaction := c6BadTx, cycles := some 0, size := 10 }

def c6State : AsmState :=
  { demoState with
      shared := { demoShared with chain_state :=
        { demoChainState with get_staging_txs := fun _ _ => [c6Entry] } },
      candidate_uncles := [(20, c6Candidate)] }

theorem c6_counterexample :
    (get_block_template c6State 1 2 none none none).1 = .err .invalidInput ∧
    (get_block_template c6State 1 2 none none none).2.candidate_uncles = [] ∧
    c6State.candidate_uncles ≠ [] := by
  exact ⟨rfl, rfl, by decide⟩

theorem c6_fee_failure_eviction_witness :
    (get_block_template c6State 1 2 none none none).2.candidate_uncles =
      List.foldl lruRemove c6State.candidate_uncles
        (prepare_uncles c6State.shared c6State.candidate_uncles
          c6State.shared.chain_state.tip_header (nextEpoch c6State.shared)).2 ∧
    (get_block_template c6State 1 2 none none none).2.work_id = c6State.work_id :=
  ⟨(c6_fee_failure_eviction c6State 1 2 none none none .invalidInput rfl rfl).1,
   (c6_fee_failure_eviction c6State 1 2 none none none .invalidInput rfl rfl).2.1⟩

def c10ProviderTx : Transaction :=
  { hash := 1, inputs := [],
    outputs := [{ capacity := 9223372036854775808, data := [],
                  lock := { args := [], code_hash := 0 }, type_ := none }] }

def c10GetTx : Nat → Option (Transaction × Nat) :=
  fun h => if h = 1 then some (c10ProviderTx, 0) else none

def c10Tx : Transaction :=
  { hash := 2,
    inputs :=
      [{ previous_output :=
          { cell := some { tx_hash := 1, index := 0 }, block_hash := none }, args := [] },
       { previous_output :=
          { cell := some { tx_hash := 1, index := 0 }, block_hash := none }, args := [] },
       { previous_output := { cell := none, block_hash := some 5 }, args := [] }],
    outputs := [] }

theorem c10_counterexample :
    calculate_transaction_fee ⟨[], c10GetTx⟩ c10Tx = .error .overflow ∧
    calculate_transaction_fee ⟨[], c10GetTx⟩ c10Tx ≠ .error .invalidInput ∧
    c10Tx.inputs.get? 2 =
      some { previous_output := { cell := none, block_hash := some 5 }, args := [] } := by
  refine ⟨rfl, ?_, rfl⟩
  intro h
  have h2 : (Except.error AsmError.overflow : Except AsmError Nat)
      = .error .invalidInput := h
  injection h2 with h3
  cases h3

def c10wTx : Transaction :=
  { hash := 3,
    inputs := [{ previous_output := { cell := none, block_hash := some 5 }, args := [] }],
    outputs := [] }

theorem c10_headerdep_fails_witness :
    calculate_transaction_fee ⟨[], c10GetTx⟩ c10wTx = .error .invalidInput :=
  (c10_headerdep_fails [] c10GetTx c10wTx).1 []
    { previous_output := { cell := none, block_hash := some 5 }, args := [] } [] []
    rfl rfl rfl (Nat.zero_le _)

def c2wProviderTx : Transaction :=
  { hash := 1, inputs := [],
    outputs := [{ capacity := 100, data := [],
                  lock := { args := [], code_hash := 0 }, type_ := none }] }

def c2wGetTx : Nat → Option (Transaction × Nat) :=
  fun h => if h = 1 then some (c2wProviderTx, 0) else none

def c2wTx : Transaction :=
  { hash := 2,
    inputs := [{ previous_output :=
      { cell := some { tx_hash := 1, index := 0 }, block_hash := none }, args := [] }],
    outputs := [{ capacity := 90, data := [],
                  lock := { args := [], code_hash := 0 }, type_ := none }] }

theorem c2_calculate_transaction_fee_witness :
    resolveAll ⟨[], c2wGetTx⟩ c2wTx.inputs = some [100] ∧
    calculate_transaction_fee ⟨[], c2wGetTx⟩ c2wTx = .ok 10 := by
  have h := (c2_calculate_transaction_fee [] c2wGetTx c2wTx).1 [100] rfl
    (by decide) (by decide)
  exact ⟨rfl, h.trans rfl⟩

def c3UncleHeader : Header :=
  { number := 0, hash := 20, parent_hash := 9, timestamp := 40, epoch := 0,
    difficulty := 100, transactions_root := 0 }

def c3Candidate : Block :=
  { header := c3UncleHeader, transactions := [], uncles := [], proposals := [] }

theorem c3_prepare_uncles_witness :
    (∀ u ∈ (prepare_uncles demoShared [(20, c3Candidate)] demoTip demoEpoch).1,
        u.header.difficulty = demoEpoch.difficulty) ∧
    (prepare_uncles demoShared [(20, c3Candidate)] demoTip demoEpoch).1.length
      ≤ demoShared.consensus.max_uncles_num :=
  ⟨fun u hu =>
      ((c3_prepare_uncles demoShared [(20, c3Candidate)] demoTip demoEpoch
        (by decide)).1 u hu).1,
   (c3_prepare_uncles demoShared [(20, c3Candidate)] demoTip demoEpoch (by decide)).2.2⟩
